import Mathlib

/-!
Verification development for the Inngest Workflow Builder execution engine.

The definitions below are a shallow embedding of the workflow executor
(the Inngest function in the executor module: template resolution,
condition evaluation, node traversal), of the condition step, and of the
external pieces the executor calls.  JavaScript runtime values are
modelled by the inductive `JSValue` (null, undefined, booleans, numbers
as integers, strings, and plain objects); JavaScript objects are
association lists with assignment (last-write-wins) semantics.
-/

namespace WorkflowExec

mutual
/-- A JavaScript runtime value as used by the executor: primitives plus
plain objects.  Numbers are modelled as integers (the executor only
produces and compares integral numbers in the modelled scenarios);
arrays and functions are outside the modelled value domain. -/
inductive JSValue where
  | null
  | undefined
  | bool (b : Bool)
  | num (n : Int)
  | str (s : String)
  | obj (fields : JSFields)
deriving Repr
/-- The field list of a JavaScript object, in property insertion order. -/
inductive JSFields where
  | nil
  | cons (k : String) (v : JSValue) (tl : JSFields)
deriving Repr
end

mutual
/-- Structural boolean equality on `JSValue`. -/
def jsBeq : JSValue → JSValue → Bool
  | .null, .null => true
  | .undefined, .undefined => true
  | .bool a, .bool b => a = b
  | .num a, .num b => a = b
  | .str a, .str b => a = b
  | .obj a, .obj b => fieldsBeq a b
  | _, _ => false
/-- Structural boolean equality on `JSFields`. -/
def fieldsBeq : JSFields → JSFields → Bool
  | .nil, .nil => true
  | .cons k v tl, .cons k2 v2 tl2 => k = k2 && jsBeq v v2 && fieldsBeq tl tl2
  | _, _ => false
end

mutual
theorem jsBeq_iff : ∀ a b : JSValue, jsBeq a b = true ↔ a = b
  | .null, b => by cases b <;> simp [jsBeq]
  | .undefined, b => by cases b <;> simp [jsBeq]
  | .bool x, b => by cases b <;> simp [jsBeq]
  | .num x, b => by cases b <;> simp [jsBeq]
  | .str x, b => by cases b <;> simp [jsBeq]
  | .obj fs, b => by
      cases b <;> simp [jsBeq]
      exact fieldsBeq_iff fs _
theorem fieldsBeq_iff : ∀ a b : JSFields, fieldsBeq a b = true ↔ a = b
  | .nil, b => by cases b <;> simp [fieldsBeq]
  | .cons k v tl, b => by
      cases b <;> simp [fieldsBeq]
      rw [jsBeq_iff, fieldsBeq_iff]
      tauto
end

instance : DecidableEq JSValue := fun a b =>
  decidable_of_iff (jsBeq a b = true) (jsBeq_iff a b)

instance : DecidableEq JSFields := fun a b =>
  decidable_of_iff (fieldsBeq a b = true) (fieldsBeq_iff a b)

/-- JavaScript truthiness coercion, `Boolean(v)`. -/
def jsTruthy : JSValue → Bool
  | .null => false
  | .undefined => false
  | .bool b => b
  | .num n => n != 0
  | .str s => !s.isEmpty
  | .obj _ => true

/-- Property lookup on an object field list (first match; field lists built
by the embedding never repeat a key). -/
def fieldsGet : JSFields → String → Option JSValue
  | .nil, _ => none
  | .cons k v tl, key => if k = key then some v else fieldsGet tl key

/-- Property lookup defaulting to `undefined`, as `obj[key]` does. -/
def fieldsGetD (fs : JSFields) (key : String) : JSValue :=
  (fieldsGet fs key).getD .undefined

/-- The `key in obj` test. -/
def fieldsHas : JSFields → String → Bool
  | .nil, _ => false
  | .cons k _ tl, key => k = key || fieldsHas tl key

/-- Convert an association list to an object field list. -/
def JSFields.ofList : List (String × JSValue) → JSFields
  | [] => .nil
  | (k, v) :: tl => .cons k v (JSFields.ofList tl)

/-- Convert an object field list to an association list. -/
def JSFields.toList : JSFields → List (String × JSValue)
  | .nil => []
  | .cons k v tl => (k, v) :: JSFields.toList tl

/-- Association-list lookup (used for the run-level maps such as
`outputs` and `results`, which are JavaScript objects in the source):
the value of the first pair carrying the key. -/
def alistGet {α : Type} : List (String × α) → String → Option α
  | [], _ => none
  | p :: tl, key => if p.1 == key then some p.2 else alistGet tl key

/-- Association-list lookup defaulting to `undefined`. -/
def alistGetD (l : List (String × JSValue)) (key : String) : JSValue :=
  (alistGet l key).getD .undefined

/-- JavaScript object assignment `o[key] = v`: replace the value in place
when the key exists, otherwise append the new property. -/
def alistSet {α : Type} (l : List (String × α)) (key : String) (v : α) :
    List (String × α) :=
  if l.any (fun p => p.1 == key) then
    l.map (fun p => if p.1 == key then (key, v) else p)
  else l ++ [(key, v)]

/-- Build a JavaScript object from a write journal: perform the writes in
order with assignment semantics.  The result has each key once, at its
first-insertion position, holding its last written value. -/
def objOf {α : Type} (l : List (String × α)) : List (String × α) :=
  l.foldl (fun acc p => alistSet acc p.1 p.2) []

/-- Sanitize a node id the way the executor does before using it as an
outputs key: every character outside `[a-zA-Z0-9]` becomes an underscore. -/
def sanitizeId (s : String) : String :=
  String.mk (s.toList.map (fun c => if c.isAlphanum then c else '_'))

/-- Escape quote and backslash for `jsonStringify`. -/
def escapeJsonChars : List Char → String
  | [] => ""
  | c :: cs =>
    (if c = '"' then "\\\"" else if c = '\\' then "\\\\" else String.mk [c])
      ++ escapeJsonChars cs

mutual
/-- A model of `JSON.stringify` on the modelled value domain (used when a
template reference resolves to an object in string context).  String
escaping is limited to quote and backslash, which covers every string the
executor manipulates in the modelled scenarios. -/
def jsonStringify : JSValue → String
  | .null => "null"
  | .undefined => "undefined"
  | .bool b => if b then "true" else "false"
  | .num n => toString n
  | .str s => "\"" ++ escapeJsonChars s.toList ++ "\""
  | .obj fields =>
      "\x7b" ++ String.intercalate "," (stringifyFields fields) ++ "\x7d"
/-- Stringify the members of an object, skipping `undefined` values as
`JSON.stringify` does. -/
def stringifyFields : JSFields → List String
  | .nil => []
  | .cons k v tl =>
    if v = .undefined then stringifyFields tl
    else ("\"" ++ k ++ "\":" ++ jsonStringify v) :: stringifyFields tl
end

/-- The `String(v)` coercion: how a value renders when interpolated. -/
def jsToDisplayString : JSValue → String
  | .null => "null"
  | .undefined => "undefined"
  | .bool b => if b then "true" else "false"
  | .num n => toString n
  | .str s => s
  | .obj _ => "[object Object]"

/-- A recorded node output: the label and data pair stored in the
run-level `outputs` map under a sanitized node id. -/
structure NodeOutput where
  label : String
  data : JSValue
deriving Repr, DecidableEq

/-- One piece of a scanned template string: either a literal character or
one occurrence of the template reference pattern, with its captured node
id, captured path, and the full matched text. -/
inductive TemplateSeg where
  | lit (c : Char)
  | ref (nodeId : String) (path : String) (matched : String)
deriving Repr, DecidableEq

/-- Attempt to match the template reference regular expression at the head
of the character list.  The pattern is open brace, open brace, at sign,
then one or more non-colon characters (the node id capture), a colon, one
or more non-close-brace characters (the path capture), and two closing
braces; captures are greedy exactly as the regex engine resolves them. -/
def tryMatchTemplate (cs : List Char) :
    Option (String × String × String × List Char) :=
  match cs with
  | '\x7b' :: '\x7b' :: '@' :: rest1 =>
    let nid := rest1.takeWhile (fun c => c ≠ ':')
    if nid.isEmpty then none
    else
      match rest1.drop nid.length with
      | ':' :: rest2 =>
        let path := rest2.takeWhile (fun c => c ≠ '\x7d')
        if path.isEmpty then none
        else
          match rest2.drop path.length with
          | '\x7d' :: '\x7d' :: rem =>
              some (String.mk nid, String.mk path,
                String.mk ('\x7b' :: '\x7b' :: '@' ::
                  (nid ++ ':' :: (path ++ ['\x7d', '\x7d']))), rem)
          | _ => none
      | _ => none
  | _ => none

/-- Scan a character list left to right, extracting every match of the
template reference pattern, like a global regex replace does.  The fuel
argument bounds the recursion and is always at least the list length. -/
def scanTemplatesAux : Nat → List Char → List TemplateSeg
  | 0, cs => cs.map .lit
  | _ + 1, [] => []
  | f + 1, c :: cs =>
    match tryMatchTemplate (c :: cs) with
    | some (nid, path, m, rem) => .ref nid path m :: scanTemplatesAux f rem
    | none => .lit c :: scanTemplatesAux f cs

/-- Split a string into template segments. -/
def scanTemplates (s : String) : List TemplateSeg :=
  scanTemplatesAux s.length s.toList

/-- The `indexOf` split used on a captured path: `none` when the path has
no dot, otherwise the part before the first dot and the part after it. -/
def splitFirstDot (s : String) : Option (String × String) :=
  let cs := s.toList
  if cs.any (fun c => c = '.') then
    let pre := cs.takeWhile (fun c => c ≠ '.')
    some (String.mk pre, String.mk (cs.drop (pre.length + 1)))
  else none

/-- Accumulator-passing worker for `splitFields`. -/
def splitDotAux : List Char → List Char → List String
  | [], acc => [String.mk acc.reverse]
  | c :: cs, acc =>
    if c = '.' then String.mk acc.reverse :: splitDotAux cs []
    else splitDotAux cs (c :: acc)

/-- The `split` on a dot applied to a field path. -/
def splitFields (s : String) : List String :=
  splitDotAux s.toList []

/-- The field navigation loop of `replaceTemplateVariable` (value mode).
On a truthy object the loop steps into the field; otherwise it breaks,
and the post-loop fixup makes the result the current value unless that
value is `undefined`. -/
def navValueLoop : JSValue → List String → JSValue
  | current, [] => current
  | current, f :: fs =>
    match current with
    | .obj fields => navValueLoop (fieldsGetD fields f) fs
    | c => if c = .undefined then .undefined else c

/-- Resolve a template reference against a node output in value mode, as
`replaceTemplateVariable` does: no dot means the whole `data`; with a dot,
null or undefined data yields `undefined`, otherwise the remainder after
the first dot is navigated field by field. -/
def resolveValuePath (data : JSValue) (path : String) : JSValue :=
  match splitFirstDot path with
  | none => data
  | some (_, fieldPath) =>
    if data = .null ∨ data = .undefined then .undefined
    else navValueLoop data (splitFields fieldPath)

/-- The field navigation loop of `processTemplates` (string mode): a step
into a non-object aborts with the empty string. -/
def navStringLoop : JSValue → List String → Option JSValue
  | current, [] => some current
  | current, f :: fs =>
    match current with
    | .obj fields => navStringLoop (fieldsGetD fields f) fs
    | _ => none

/-- How a resolved value renders into a configuration string: null and
undefined render empty, objects are JSON stringified, and other scalars
use the `String` coercion. -/
def renderData : JSValue → String
  | .null => ""
  | .undefined => ""
  | .obj fs => jsonStringify (.obj fs)
  | v => jsToDisplayString v

/-- Resolve a template reference in string (configuration) mode, as the
replace callback inside `processTemplates` does. -/
def resolveStringPath (data : JSValue) (path : String) : String :=
  match splitFirstDot path with
  | none => renderData data
  | some (_, fieldPath) =>
    if data = .null ∨ data = .undefined then ""
    else
      match navStringLoop data (splitFields fieldPath) with
      | none => ""
      | some current => renderData current

/-- Render one template segment in string mode: a reference whose
sanitized node id has no recorded output is left as its literal matched
text. -/
def renderSeg (outputs : List (String × NodeOutput)) : TemplateSeg → String
  | .lit c => String.mk [c]
  | .ref nid path m =>
    match alistGet outputs (sanitizeId nid) with
    | none => m
    | some output => resolveStringPath output.data path

/-- Replace every template reference in a configuration string. -/
def processTemplateString (outputs : List (String × NodeOutput))
    (s : String) : String :=
  String.join ((scanTemplates s).map (renderSeg outputs))

/-- `processTemplates`: rewrite each string-valued configuration field,
passing every other value through unchanged. -/
def processTemplates (config : List (String × JSValue))
    (outputs : List (String × NodeOutput)) : List (String × JSValue) :=
  config.map (fun p =>
    match p.2 with
    | .str s => (p.1, .str (processTemplateString outputs s))
    | v => (p.1, v))

/-- The outcome of the substitution pass over a condition expression: the
transformed text, the generated variable bindings, and the resolved
values map keyed by the captured paths. -/
structure SubstResult where
  text : String
  evalCtx : List (String × JSValue)
  resolved : List (String × JSValue)
deriving Repr, DecidableEq

/-- Worker for `substTemplates`: walk the segments, replacing each
resolvable reference with a fresh numbered variable bound in the
evaluation context, and leaving unresolvable references as their literal
matched text (recording `undefined` for their path, since the replace
callback looks the literal text up in the evaluation context). -/
def substTemplatesAux (outputs : List (String × NodeOutput)) :
    List TemplateSeg → String → List (String × JSValue) →
    List (String × JSValue) → Nat → SubstResult
  | [], text, ctx, resolved, _ => ⟨text, ctx, resolved⟩
  | .lit c :: segs, text, ctx, resolved, n =>
      substTemplatesAux outputs segs (text ++ String.mk [c]) ctx resolved n
  | .ref nid path m :: segs, text, ctx, resolved, n =>
    match alistGet outputs (sanitizeId nid) with
    | none =>
        substTemplatesAux outputs segs (text ++ m) ctx
          (alistSet resolved path (alistGetD ctx m)) n
    | some output =>
        let value := resolveValuePath output.data path
        let vn := "__v" ++ toString n
        substTemplatesAux outputs segs (text ++ vn) (ctx ++ [(vn, value)])
          (alistSet resolved path value) (n + 1)

/-- The substitution pass of `evaluateConditionExpression` (lines that
replace the template pattern before validation and evaluation). -/
def substTemplates (outputs : List (String × NodeOutput)) (s : String) :
    SubstResult :=
  substTemplatesAux outputs (scanTemplates s) "" [] [] 0

/-- A character of the safe expression grammar: alphanumerics, space,
underscore, dot, quotes, parentheses, comparison and boolean operator
characters, and minus. -/
def safeExprChar (c : Char) : Bool :=
  c.isAlphanum || c = ' ' || c = '_' || c = '.' || c = Char.ofNat 39 ||
    c = '"' || c = '(' || c = ')' || c = '!' || c = '=' || c = '<' ||
    c = '>' || c = '&' || c = '|' || c = '-'

/-- A character of the template reference syntax. -/
def templateSyntaxChar (c : Char) : Bool :=
  c = '\x7b' || c = '\x7d' || c = '@' || c = ':'

/-- Modelled from the spec: the module providing
`preValidateConditionExpression` is not among the sources; per the spec
it rejects, before substitution, any raw expression string containing
characters or constructs outside an allow-listed safe-expression grammar
(comparisons, boolean and logical operators, literals, template
reference syntax).  Modelled as a character allow-list that includes the
template reference syntax characters. -/
def preValidateConditionExpression (s : String) : Bool :=
  s.toList.all (fun c => safeExprChar c || templateSyntaxChar c)

/-- Modelled from the spec: the module providing
`validateConditionExpression` is not among the sources; per the spec the
transformed, now-variable-only expression is re-validated against the
safe grammar, which at this stage no longer contains the template
reference syntax (every resolvable reference has been replaced by a
plain generated variable name).  Modelled as the same character
allow-list without the template syntax characters. -/
def validateConditionExpression (s : String) : Bool :=
  s.toList.all safeExprChar

/-- A token of the safe condition expression grammar. -/
inductive CTok where
  | lparen
  | rparen
  | bang
  | ampamp
  | pipepipe
  | eqeqeq
  | bangeqeq
  | ltT
  | gtT
  | leT
  | geT
  | ident (s : String)
  | numL (n : Int)
  | strL (s : String)
deriving Repr, DecidableEq

/-- Accumulate a run of decimal digit characters into a natural number. -/
def digitsToNat : List Char → Nat → Nat
  | [], acc => acc
  | c :: cs, acc => digitsToNat cs (acc * 10 + (c.toNat - 48))

/-- Read a quoted string literal (no escape sequences in the modelled
grammar); returns the body and the remainder past the closing quote. -/
def readQuoted (q : Char) (cs : List Char) : Option (String × List Char) :=
  let body := cs.takeWhile (fun c => c ≠ q ∧ c ≠ '\\')
  match cs.drop body.length with
  | c :: rem => if c = q then some (String.mk body, rem) else none
  | [] => none

/-- Tokenizer for the safe expression grammar.  Fuel-bounded; every step
consumes at least one character.  `none` models a syntax error raised by
the dynamic function constructor. -/
def tokenizeCondAux : Nat → List Char → Option (List CTok)
  | 0, _ => none
  | _ + 1, [] => some []
  | f + 1, c :: cs =>
    if c = ' ' then tokenizeCondAux f cs
    else if c = '(' then (tokenizeCondAux f cs).map (.lparen :: ·)
    else if c = ')' then (tokenizeCondAux f cs).map (.rparen :: ·)
    else if c = '=' then
      match cs with
      | '=' :: '=' :: rem => (tokenizeCondAux f rem).map (.eqeqeq :: ·)
      | _ => none
    else if c = '!' then
      match cs with
      | '=' :: '=' :: rem => (tokenizeCondAux f rem).map (.bangeqeq :: ·)
      | _ => (tokenizeCondAux f cs).map (.bang :: ·)
    else if c = '&' then
      match cs with
      | '&' :: rem => (tokenizeCondAux f rem).map (.ampamp :: ·)
      | _ => none
    else if c = '|' then
      match cs with
      | '|' :: rem => (tokenizeCondAux f rem).map (.pipepipe :: ·)
      | _ => none
    else if c = '<' then
      match cs with
      | '=' :: rem => (tokenizeCondAux f rem).map (.leT :: ·)
      | _ => (tokenizeCondAux f cs).map (.ltT :: ·)
    else if c = '>' then
      match cs with
      | '=' :: rem => (tokenizeCondAux f rem).map (.geT :: ·)
      | _ => (tokenizeCondAux f cs).map (.gtT :: ·)
    else if c.isDigit then
      let ds := (c :: cs).takeWhile Char.isDigit
      (tokenizeCondAux f ((c :: cs).drop ds.length)).map
        (.numL (Int.ofNat (digitsToNat ds 0)) :: ·)
    else if c = Char.ofNat 39 ∨ c = '"' then
      match readQuoted c cs with
      | some (s, rem) => (tokenizeCondAux f rem).map (.strL s :: ·)
      | none => none
    else if c.isAlpha ∨ c = '_' then
      let ws := (c :: cs).takeWhile (fun d => d.isAlphanum || d = '_')
      (tokenizeCondAux f ((c :: cs).drop ws.length)).map (.ident (String.mk ws) :: ·)
    else none

/-- Tokenize a condition expression string. -/
def tokenizeCond (s : String) : Option (List CTok) :=
  tokenizeCondAux (s.length + 1) s.toList

/-- Comparison operators of the safe grammar. -/
inductive CmpOp where
  | ceq
  | cne
  | clt
  | cgt
  | cle
  | cge
deriving Repr, DecidableEq

/-- Abstract syntax of a safe condition expression. -/
inductive CExpr where
  | lit (v : JSValue)
  | var (s : String)
  | notE (e : CExpr)
  | orE (a b : CExpr)
  | andE (a b : CExpr)
  | cmpE (op : CmpOp) (a b : CExpr)
deriving Repr

/-- JavaScript relational comparison restricted to same-typed numbers and
strings; other operand combinations compare false (a simplification of
the coercive corner cases, which the executor never exercises). -/
def jsCompare (op : CmpOp) (a b : JSValue) : Bool :=
  match op, a, b with
  | .ceq, x, y => x = y
  | .cne, x, y => x ≠ y
  | .clt, .num x, .num y => x < y
  | .cgt, .num x, .num y => x > y
  | .cle, .num x, .num y => x ≤ y
  | .cge, .num x, .num y => x ≥ y
  | .clt, .str x, .str y => x < y
  | .cgt, .str x, .str y => x > y
  | .cle, .str x, .str y => x ≤ y
  | .cge, .str x, .str y => x ≥ y
  | _, _, _ => false

/-- Evaluate a safe expression in a variable context; `none` models a
reference error for an unbound identifier.  The boolean connectives
return operand values and short-circuit exactly as in JavaScript. -/
def evalCExpr : CExpr → List (String × JSValue) → Option JSValue
  | .lit v, _ => some v
  | .var s, ctx => alistGet ctx s
  | .notE e, ctx => (evalCExpr e ctx).map (fun v => .bool (!jsTruthy v))
  | .orE a b, ctx =>
    match evalCExpr a ctx with
    | none => none
    | some va => if jsTruthy va then some va else evalCExpr b ctx
  | .andE a b, ctx =>
    match evalCExpr a ctx with
    | none => none
    | some va => if jsTruthy va then evalCExpr b ctx else some va
  | .cmpE op a b, ctx =>
    match evalCExpr a ctx, evalCExpr b ctx with
    | some va, some vb => some (.bool (jsCompare op va vb))
    | _, _ => none

/-- The binary operator admitted at a precedence level, with the
resulting constructor: level 0 is disjunction, 1 conjunction, 2 equality
and 3 relational comparison. -/
def levelOp (lvl : Nat) (t : CTok) : Option (CExpr → CExpr → CExpr) :=
  match lvl, t with
  | 0, .pipepipe => some .orE
  | 1, .ampamp => some .andE
  | 2, .eqeqeq => some (.cmpE .ceq)
  | 2, .bangeqeq => some (.cmpE .cne)
  | 3, .ltT => some (.cmpE .clt)
  | 3, .gtT => some (.cmpE .cgt)
  | 3, .leT => some (.cmpE .cle)
  | 3, .geT => some (.cmpE .cge)
  | _, _ => none

/-- Recursive descent parser for the safe grammar, as one fuel-bounded
function.  With accumulator `some acc` the call parses the left
associative operator chain of the level; with `none` it parses one
operand of the level.  Levels 0 to 3 are the binary levels, 4 is logical
negation and 5 is a primary expression. -/
def parseCond : Nat → Nat → Option CExpr → List CTok → Option (CExpr × List CTok)
  | 0, _, _, _ => none
  | f + 1, lvl, some acc, toks =>
    match toks with
    | t :: rest =>
      match levelOp lvl t with
      | some mk =>
        match parseCond f (lvl + 1) none rest with
        | some (rhs, r2) => parseCond f lvl (some (mk acc rhs)) r2
        | none => none
      | none => some (acc, toks)
    | [] => some (acc, toks)
  | f + 1, lvl, none, toks =>
    if lvl < 4 then
      match parseCond f (lvl + 1) none toks with
      | some (e, r) => parseCond f lvl (some e) r
      | none => none
    else if lvl = 4 then
      match toks with
      | .bang :: r => (parseCond f 4 none r).map (fun p => (.notE p.1, p.2))
      | _ => parseCond f 5 none toks
    else
      match toks with
      | .lparen :: r =>
        match parseCond f 0 none r with
        | some (e, .rparen :: r2) => some (e, r2)
        | _ => none
      | .numL n :: r => some (.lit (.num n), r)
      | .strL s :: r => some (.lit (.str s), r)
      | .ident "true" :: r => some (.lit (.bool true), r)
      | .ident "false" :: r => some (.lit (.bool false), r)
      | .ident "null" :: r => some (.lit .null, r)
      | .ident "undefined" :: r => some (.lit .undefined, r)
      | .ident s :: r => some (.var s, r)
      | _ => none

/-- Modelled from the spec: the executor evaluates the validated
expression with a dynamically constructed function whose only bindings
are the generated variable names; the design notes of the spec direct a
reimplementation to parse the allow-listed grammar (literals, boolean
connectives, comparisons, parentheses, identifiers) and interpret it
directly with the same boolean semantics.  `none` models a thrown
evaluation error (syntax error, unbound identifier). -/
def jsEval (s : String) (ctx : List (String × JSValue)) : Option JSValue :=
  match tokenizeCond s with
  | none => none
  | some toks =>
    match parseCond (8 * (toks.length + 2)) 0 none toks with
    | some (e, []) => evalCExpr e ctx
    | _ => none

/-- The result shape of the condition evaluator. -/
structure ConditionEvalResult where
  result : Bool
  resolvedValues : List (String × JSValue)
deriving Repr, DecidableEq

/-- `evaluateConditionExpression`: booleans pass through; strings go
through pre-validation, substitution, post-substitution validation and
evaluation, failing closed; every other value is coerced with the
boolean coercion. -/
def evaluateConditionExpression (conditionExpression : JSValue)
    (outputs : List (String × NodeOutput)) : ConditionEvalResult :=
  match conditionExpression with
  | .bool b => ⟨b, []⟩
  | .str s =>
    if preValidateConditionExpression s then
      let sub := substTemplates outputs s
      if validateConditionExpression sub.text then
        match jsEval sub.text sub.evalCtx with
        | some v => ⟨jsTruthy v, sub.resolved⟩
        | none => ⟨false, []⟩
      else ⟨false, sub.resolved⟩
    else ⟨false, []⟩
  | v => ⟨jsTruthy v, []⟩

/-- Skip JSON whitespace. -/
def jsonSkipWs (cs : List Char) : List Char :=
  cs.dropWhile (fun c => c = ' ' ∨ c = '\n' ∨ c = '\t' ∨ c = '\r')

mutual
/-- A model of `JSON.parse` for the webhook mock payload, covering the
JSON subset the builder produces: null, booleans, unsigned and negative
integers, escape-free strings, and objects.  `none` models a parse error
(which the trigger step catches and ignores). -/
def jsonParseValue : Nat → List Char → Option (JSValue × List Char)
  | 0, _ => none
  | f + 1, cs =>
    match jsonSkipWs cs with
    | 'n' :: 'u' :: 'l' :: 'l' :: rem => some (.null, rem)
    | 't' :: 'r' :: 'u' :: 'e' :: rem => some (.bool true, rem)
    | 'f' :: 'a' :: 'l' :: 's' :: 'e' :: rem => some (.bool false, rem)
    | '"' :: rem =>
      match readQuoted '"' rem with
      | some (s, rem2) => some (.str s, rem2)
      | none => none
    | '-' :: rem =>
      let ds := rem.takeWhile Char.isDigit
      if ds.isEmpty then none
      else some (.num (-(Int.ofNat (digitsToNat ds 0))), rem.drop ds.length)
    | '\x7b' :: rem =>
      match jsonSkipWs rem with
      | '\x7d' :: rem2 => some (.obj .nil, rem2)
      | _ =>
        match jsonParseMembers f rem with
        | some (fs, rem2) => some (.obj fs, rem2)
        | none => none
    | c :: rest =>
      if c.isDigit then
        let ds := (c :: rest).takeWhile Char.isDigit
        some (.num (Int.ofNat (digitsToNat ds 0)), (c :: rest).drop ds.length)
      else none
    | [] => none
/-- Parse one or more JSON object members up to the closing brace. -/
def jsonParseMembers : Nat → List Char → Option (JSFields × List Char)
  | 0, _ => none
  | f + 1, cs =>
    match jsonSkipWs cs with
    | '"' :: rem =>
      match readQuoted '"' rem with
      | some (k, rem2) =>
        match jsonSkipWs rem2 with
        | ':' :: rem3 =>
          match jsonParseValue f rem3 with
          | some (v, rem4) =>
            match jsonSkipWs rem4 with
            | ',' :: rem5 =>
              match jsonParseMembers f rem5 with
              | some (fs, rem6) => some (.cons k v fs, rem6)
              | none => none
            | '\x7d' :: rem5 => some (.cons k v .nil, rem5)
            | _ => none
          | none => none
        | _ => none
      | none => none
    | _ => none
end

/-- Parse a whole JSON document (no trailing garbage). -/
def jsonParse (s : String) : Option JSValue :=
  match jsonParseValue (s.length + 1) s.toList with
  | some (v, rem) => if jsonSkipWs rem = [] then some v else none
  | none => none

/-- The own enumerable properties contributed by spreading a value into
an object literal: an object contributes its fields, a string its
indexed characters, and primitives contribute nothing. -/
def spreadFields : JSValue → List (String × JSValue)
  | .obj fs => JSFields.toList fs
  | .str s => s.toList.enum.map (fun p => (toString p.1, .str (String.mk [p.2])))
  | _ => []

/-- The fixed part of a synthesized trigger payload. -/
def baseTriggerFields (now : Int) : List (String × JSValue) :=
  [("triggered", .bool true), ("timestamp", .num now)]

/-- Object spread merge: the fields of `b` written over the fields of
`a` with assignment semantics. -/
def mergeFields (a b : List (String × JSValue)) : List (String × JSValue) :=
  b.foldl (fun acc p => alistSet acc p.1 p.2) a

/-- The trigger step body: synthesize the trigger data payload.  When the
trigger is a webhook with a truthy configured mock request and the live
trigger input is empty, the parsed mock payload is spread over the base
fields (parse errors ignored); otherwise a non-empty live input is
spread over the base fields; otherwise the payload is just the base
fields. -/
def runTriggerData (config : List (String × JSValue))
    (input : List (String × JSValue)) (now : Int) : JSValue :=
  if alistGetD config "triggerType" = .str "Webhook" ∧
      jsTruthy (alistGetD config "webhookMockRequest") = true ∧ input = [] then
    match jsonParse (jsToDisplayString (alistGetD config "webhookMockRequest")) with
    | some v => .obj (.ofList (mergeFields (baseTriggerFields now) (spreadFields v)))
    | none => .obj (.ofList (baseTriggerFields now))
  else if input ≠ [] then
    .obj (.ofList (mergeFields (baseTriggerFields now) input))
  else .obj (.ofList (baseTriggerFields now))

/-- A workflow node, flattened from the store shape: `ntype` is the node
data type, an empty `label` models an absent or empty label (the source
only ever uses the label through truthiness), `enabled` is tri-state as
in the source (only a literal `false` disables a node), and an absent
configuration is the empty list (the source defaults it to an empty
object). -/
structure WorkflowNode where
  id : String
  ntype : String
  label : String
  enabled : Option Bool
  config : List (String × JSValue)
deriving Repr, DecidableEq

/-- A directed edge of the workflow graph. -/
structure WorkflowEdge where
  source : String
  target : String
deriving Repr, DecidableEq

/-- What a non-Condition action step does when invoked: return a value or
throw.  The concrete system steps and registry plugins are external to
the executor, so runs are parameterized by this behaviour. -/
inductive StepOutcome where
  | ok (v : JSValue)
  | thrown (msg : String)
deriving Repr, DecidableEq

/-- The input of one engine invocation together with the external
collaborators: `getActionLabel` models the display label lookup of the
step registry (empty string for none), `oracle` models the resolved step
function for non-Condition action types (system steps, registry
plugins, and the unknown-action fallback), and `now` models the clock
read by the trigger step. -/
structure Env where
  nodes : List WorkflowNode
  edges : List WorkflowEdge
  triggerInput : List (String × JSValue)
  executionId : Option String
  getActionLabel : String → String
  oracle : String → List (String × JSValue) → StepOutcome
  now : Int

/-- An entry of the run-level `results` map. -/
structure ExecutionResult where
  success : Bool
  data : JSValue
  error : JSValue
deriving Repr, DecidableEq

/-- The mutable state of one run, instrumented with write journals: the
`results` and `outputs` maps of the source are recovered from the
journals with object-assignment semantics, and the journals additionally
record every write in order (an `outJ` entry carries the raw node id,
the sanitized key, and the written output). -/
structure St where
  visited : List String
  resJ : List (String × ExecutionResult)
  outJ : List (String × String × NodeOutput)
deriving Repr, DecidableEq

/-- The `outputs` object derived from the output write journal. -/
def outMapOf (outJ : List (String × String × NodeOutput)) :
    List (String × NodeOutput) :=
  objOf (outJ.map (fun e => (e.2.1, e.2.2)))

/-- Node lookup in the node map. -/
def nodeLookup (env : Env) (nid : String) : Option WorkflowNode :=
  env.nodes.find? (fun n => n.id == nid)

/-- The successor list of a node, in edge order. -/
def successors (env : Env) (nid : String) : List String :=
  (env.edges.filter (fun e => e.source == nid)).map (fun e => e.target)

/-- The trigger nodes that seed traversal: type trigger and no incoming
edge, in node order. -/
def triggerIds (env : Env) : List String :=
  (env.nodes.filter
    (fun n => n.ntype == "trigger" && !(env.edges.any (fun e => e.target == n.id)))).map
    (fun n => n.id)

/-- The display label fallback used for outputs entries and error
messages: the node label when truthy, otherwise the node id. -/
def labelOr (node : WorkflowNode) : String :=
  if node.label = "" then node.id else node.label

/-- `getNodeName`: the display name attached to the step context. -/
def getNodeName (env : Env) (node : WorkflowNode) : String :=
  if node.label ≠ "" then node.label
  else if node.ntype = "action" then
    let av := alistGetD node.config "actionType"
    if jsTruthy av then
      let l := env.getActionLabel (jsToDisplayString av)
      if l ≠ "" then l else "Action"
    else "Action"
  else if node.ntype = "trigger" then
    let tv := alistGetD node.config "triggerType"
    if jsTruthy tv then jsToDisplayString tv else "Trigger"
  else node.ntype

/-- The step context object passed to every executed action. -/
def stepContextJS (env : Env) (node : WorkflowNode)
    (actionTypeRaw : JSValue) : JSFields :=
  .cons "executionId"
    (match env.executionId with | some s => .str s | none => .undefined)
    (.cons "nodeId" (.str node.id)
      (.cons "nodeName" (.str (getNodeName env node))
        (.cons "nodeType" actionTypeRaw .nil)))

/-- The Condition step function from the steps module: it returns an
object holding the boolean it was handed (the logging wrapper has no
observable effect on the result). -/
def conditionStep (input : List (String × JSValue)) : JSValue :=
  .obj (.cons "condition" (alistGetD input "condition") .nil)

/-- The explicit error-result check applied to an action step result: a
truthy object with a `success` property strictly equal to `false`. -/
def isErrorResult : JSValue → Bool
  | .obj fs => fieldsHas fs "success" && jsBeq (fieldsGetD fs "success") (.bool false)
  | _ => false

/-- Normalize an action step result: an explicit error result becomes a
failed `ExecutionResult` carrying its error message (or the fallback
message when the error field is falsy); anything else is wrapped as a
success with the returned value as data. -/
def completeActionStep (actionKey : String) (stepResult : JSValue) :
    ExecutionResult :=
  if isErrorResult stepResult then
    let errv := match stepResult with
      | .obj fs => fieldsGetD fs "error"
      | _ => .undefined
    ⟨false, .undefined,
      if jsTruthy errv then errv
      else .str ("Step \"" ++ actionKey ++ "\" failed")⟩
  else ⟨true, stepResult, .undefined⟩

/-- How one node-step invocation concludes: a thrown error (caught by the
surrounding try), an early return before any output write (an action
node with no configured action type), or a completed result that gets
stored. -/
inductive NodeStepResult where
  | thrown (msg : String)
  | earlyReturn (r : ExecutionResult)
  | completed (r : ExecutionResult)
deriving Repr, DecidableEq

/-- The body of one node execution, up to the storing of results: run
the trigger step, or resolve and run the action step (with template
processing of the configuration, the condition kept unprocessed, and the
Condition action special-cased through the condition evaluator), or fail
on an unknown node type. -/
def runNodeStep (env : Env) (node : WorkflowNode)
    (outputs : List (String × NodeOutput)) : NodeStepResult :=
  if node.ntype = "trigger" then
    .completed ⟨true, runTriggerData node.config env.triggerInput env.now, .undefined⟩
  else if node.ntype = "action" then
    let actionTypeRaw := alistGetD node.config "actionType"
    if jsTruthy actionTypeRaw = false then
      .earlyReturn ⟨false, .undefined,
        .str ("Action node \"" ++ labelOr node ++ "\" has no action type configured")⟩
    else
      let actionKey := jsToDisplayString actionTypeRaw
      let configWithoutCondition := alistSet node.config "condition" .undefined
      let originalCondition := alistGetD node.config "condition"
      let processed0 := processTemplates configWithoutCondition outputs
      let processedConfig :=
        if originalCondition ≠ .undefined then
          alistSet processed0 "condition" originalCondition
        else processed0
      let ctx := stepContextJS env node actionTypeRaw
      let stepInput := alistSet processedConfig "_context" (.obj ctx)
      if actionTypeRaw = .str "Condition" then
        let origExpr := alistGetD stepInput "condition"
        let er := evaluateConditionExpression origExpr outputs
        .completed (completeActionStep actionKey (conditionStep
          [("condition", .bool er.result),
           ("expression", match origExpr with | .str s => .str s | _ => .undefined),
           ("values",
             if er.resolvedValues = [] then .undefined
             else .obj (.ofList er.resolvedValues)),
           ("_context", .obj ctx)]))
      else
        match env.oracle actionKey stepInput with
        | .ok v => .completed (completeActionStep actionKey v)
        | .thrown m => .thrown m
  else
    .completed ⟨false, .undefined,
      .str ("Unknown node type \"" ++ node.ntype ++ "\"")⟩

/-- The successor gate applied after a successful Condition action: the
optional `condition` field of the result data must be strictly `true`. -/
def condGate : JSValue → Bool
  | .obj fs => jsBeq (fieldsGetD fs "condition") (.bool true)
  | _ => false

/-- A pending traversal task: visit one node, or visit a successor list
in order. -/
inductive ExecTask where
  | one (nid : String)
  | many (nids : List String)
deriving Repr, DecidableEq

/-- The traversal of `executeNode`, fuel-bounded (the fuel strictly
decreases on every recursive call; `stdFuel` of the environment always
suffices, as proved below).  Visiting a node follows the source: the
visited-set guard, the node lookup, the disabled pass-through that
records a null output and continues to every successor, and otherwise
the node step whose completed result is stored in both journals, with
successors visited only on success and, for a Condition action, only
when the condition gate passes.  A thrown step error records only the
failed result, as the catch clause does. -/
def exec : Nat → Env → ExecTask → St → St
  | 0, _, _, st => st
  | _ + 1, _, .many [], st => st
  | f + 1, env, .many (n :: ns), st => exec f env (.many ns) (exec f env (.one n) st)
  | f + 1, env, .one nid, st =>
    if st.visited.contains nid then st
    else
      match nodeLookup env nid with
      | none => ⟨nid :: st.visited, st.resJ, st.outJ⟩
      | some node =>
        if node.enabled = some false then
          exec f env (.many (successors env nid))
            ⟨nid :: st.visited, st.resJ,
             st.outJ ++ [(nid, sanitizeId nid, ⟨labelOr node, .null⟩)]⟩
        else
          match runNodeStep env node (outMapOf st.outJ) with
          | .thrown m =>
              ⟨nid :: st.visited, st.resJ ++ [(nid, ⟨false, .undefined, .str m⟩)],
               st.outJ⟩
          | .earlyReturn r =>
              ⟨nid :: st.visited, st.resJ ++ [(nid, r)], st.outJ⟩
          | .completed r =>
            let st1 : St :=
              ⟨nid :: st.visited, st.resJ ++ [(nid, r)],
               st.outJ ++ [(nid, sanitizeId nid, ⟨labelOr node, r.data⟩)]⟩
            if r.success then
              if node.ntype = "action" ∧
                  alistGetD node.config "actionType" = .str "Condition" then
                if condGate r.data then
                  exec f env (.many (successors env nid)) st1
                else st1
              else exec f env (.many (successors env nid)) st1
            else st1

/-- Run the trigger walks in order, each with a fresh empty visited set
over the shared journals, as the trigger loop does. -/
def runWalks (f : Nat) (env : Env) : List String → St → St
  | [], st => st
  | t :: ts, st => runWalks f env ts (exec f env (.one t) ⟨[], st.resJ, st.outJ⟩)

/-- The value returned by one engine invocation, with the journals kept
alongside the derived maps. -/
structure RunResult where
  success : Bool
  results : List (String × ExecutionResult)
  outputs : List (String × NodeOutput)
  resJournal : List (String × ExecutionResult)
  outJournal : List (String × String × NodeOutput)
deriving Repr, DecidableEq

/-- A fuel amount that always suffices for a full run (proved below). -/
def stdFuel (env : Env) : Nat :=
  (env.edges.length + 2) * (env.nodes.length + 2)

/-- One engine invocation: run every trigger walk, then aggregate the
overall success flag as the conjunction of the success fields over the
final results map. -/
def runWorkflow (f : Nat) (env : Env) : RunResult :=
  let st := runWalks f env (triggerIds env) ⟨[], [], []⟩
  let finalResults := objOf st.resJ
  ⟨finalResults.all (fun p => p.2.success), finalResults, outMapOf st.outJ,
   st.resJ, st.outJ⟩

/-- Build an enabled node with no label. -/
def mkNode (id ntype : String) (config : List (String × JSValue)) :
    WorkflowNode :=
  ⟨id, ntype, "", none, config⟩

/-- An oracle whose every step succeeds with a fixed string. -/
def okOracle : String → List (String × JSValue) → StepOutcome :=
  fun _ _ => .ok (.str "done")

/-- The initial state of a run. -/
def stInit : St := ⟨[], [], []⟩

/-- The condition expression of the C1 counterexample: one resolvable
reference and one unresolvable reference. -/
def c1expr : String :=
  "\x7b\x7b@n1:x\x7d\x7d === 1 && \x7b\x7b@n2:y\x7d\x7d === 2"

/-- The recorded outputs of the C1 counterexample: only `n1` exists. -/
def c1outs : List (String × NodeOutput) := [("n1", ⟨"A", .num 1⟩)]

/-- Oracle for the two-trigger overwrite scenario: the Make step builds
an object output and the Echo step returns its processed `msg`
configuration value. -/
def makeEchoOracle : String → List (String × JSValue) → StepOutcome :=
  fun actionKey input =>
    if actionKey = "Make" then .ok (.obj (.cons "v" (.num 1) .nil))
    else if actionKey = "Echo" then .ok (alistGetD input "msg")
    else .ok .null

/-- The two-trigger graph of the C2 counterexample: `T1 → X` and
`T2 → A → X`, where the output of `X` echoes a template referencing the
output of `A`, so the two walks write different values for `X`. -/
def c2Env : Env :=
  ⟨[mkNode "T1" "trigger" [("triggerType", .str "Manual")],
    mkNode "T2" "trigger" [("triggerType", .str "Manual")],
    mkNode "A" "action" [("actionType", .str "Make")],
    mkNode "X" "action"
      [("actionType", .str "Echo"), ("msg", .str "\x7b\x7b@A:x.v\x7d\x7d")]],
   [⟨"T1", "X"⟩, ⟨"T2", "A"⟩, ⟨"A", "X"⟩],
   [], none, fun _ => "", makeEchoOracle, 0⟩

/-- Oracle for the returned-failure scenario: the Boom step returns an
explicit error result. -/
def boomOracle : String → List (String × JSValue) → StepOutcome :=
  fun actionKey _ =>
    if actionKey = "Boom" then
      .ok (.obj (.cons "success" (.bool false) (.cons "error" (.str "boom") .nil)))
    else .ok (.str "fine")

/-- The graph of the C3 counterexample: `T → X → Y` where the step of
`X` returns an explicit failure result. -/
def c3Env : Env :=
  ⟨[mkNode "T" "trigger" [("triggerType", .str "Manual")],
    mkNode "X" "action" [("actionType", .str "Boom")],
    mkNode "Y" "action" [("actionType", .str "Fine")]],
   [⟨"T", "X"⟩, ⟨"X", "Y"⟩],
   [], none, fun _ => "", boomOracle, 0⟩

/-- The graph of the condition pruning claim: `T → C → A` with a literal
boolean condition on the Condition action `C`. -/
def c5Env (b : Bool) (now : Int) : Env :=
  ⟨[mkNode "T" "trigger" [("triggerType", .str "Manual")],
    mkNode "C" "action" [("actionType", .str "Condition"), ("condition", .bool b)],
    mkNode "A" "action" [("actionType", .str "Ok")]],
   [⟨"T", "C"⟩, ⟨"C", "A"⟩],
   [], none, fun _ => "", okOracle, now⟩

/-- An environment with no nodes at all: a run that records nothing. -/
def emptyEnv : Env :=
  ⟨[], [], [], none, fun _ => "", okOracle, 0⟩

/-- The cyclic graph of the termination claim: edges `A → B` and
`B → A`. -/
def cycEnv : Env :=
  ⟨[mkNode "A" "action" [("actionType", .str "Ok")],
    mkNode "B" "action" [("actionType", .str "Ok")]],
   [⟨"A", "B"⟩, ⟨"B", "A"⟩],
   [], none, fun _ => "", okOracle, 0⟩

/-- The graph of the disabled pass-through witness: `T → D` with `D`
disabled and two successors `A` and `B`. -/
def c9Env : Env :=
  ⟨[mkNode "T" "trigger" [("triggerType", .str "Manual")],
    ⟨"D", "action", "", some false, [("actionType", .str "Ok")]⟩,
    mkNode "A" "action" [("actionType", .str "Ok")],
    mkNode "B" "action" [("actionType", .str "Ok")]],
   [⟨"T", "D"⟩, ⟨"D", "A"⟩, ⟨"D", "B"⟩],
   [], none, fun _ => "", okOracle, 0⟩

/-- The trigger configuration of the C8 counterexample: a webhook with a
mock payload configured. -/
def c8cfg : List (String × JSValue) :=
  [("triggerType", .str "Webhook"),
   ("webhookMockRequest", .str "\x7b\"a\":1\x7d")]

/-- Whether a value is a boolean. -/
def isBoolJS : JSValue → Bool
  | .bool _ => true
  | _ => false

/-- Whether a value is a string. -/
def isStrJS : JSValue → Bool
  | .str _ => true
  | _ => false

/-- The ids of the nodes of an environment. -/
def nodeIds (env : Env) : List String :=
  env.nodes.map (fun n => n.id)

/-- How many node ids are not yet in the visited set. -/
def unvisitedCount (env : Env) (visited : List String) : Nat :=
  ((nodeIds env).filter (fun i => !visited.contains i)).length

/-- A fuel amount sufficient for a task from a given state: traversal
depth is bounded by the unvisited node count, and each level spends at
most a successor list plus bookkeeping. -/
def taskBound (env : Env) : ExecTask → St → Nat
  | .one _, st => (env.edges.length + 2) * unvisitedCount env st.visited + 1
  | .many l, st =>
      (env.edges.length + 2) * unvisitedCount env st.visited + l.length + 1

/-- The field of an object value, `none` on non-objects. -/
def objField (v : JSValue) (k : String) : Option JSValue :=
  match v with
  | .obj fs => fieldsGet fs k
  | _ => none

/-- The literal unknown-reference string of the C4 claim. -/
def c4lit : String := "\x7b\x7b@missing:x\x7d\x7d"

/-- C10: for every condition expression value that is neither a boolean
nor a string, the Condition Evaluator returns the boolean coercion of
the value and an empty resolved-values map; the equation shows neither
validation nor substitution nor evaluation contributes to the result. -/
theorem c10_nonstring_condition_coercion :
    ∀ (v : JSValue) (outputs : List (String × NodeOutput)),
      isBoolJS v = false → isStrJS v = false →
      evaluateConditionExpression v outputs = ⟨jsTruthy v, []⟩ := by
  intro v outputs hb hs
  cases v <;> simp_all [isBoolJS, isStrJS, evaluateConditionExpression]

/-- Witness for C10 at a numeric condition value. -/
theorem c10_nonstring_condition_coercion_witness :
    isBoolJS (.num 5) = false ∧ isStrJS (.num 5) = false ∧
      evaluateConditionExpression (.num 5) [] = ⟨true, []⟩ :=
  ⟨by decide, by decide,
   c10_nonstring_condition_coercion (.num 5) [] (by decide) (by decide)⟩

/-- C1 counterexample: the expression with one resolvable and one
unresolvable reference passes pre-validation, fails post-substitution
validation, and returns the accumulated resolved values rather than the
empty map the claim asserts (the result flag is still false). -/
theorem c1_counterexample :
    evaluateConditionExpression (.str c1expr) c1outs ≠ ⟨false, []⟩ ∧
      evaluateConditionExpression (.str c1expr) c1outs =
        ⟨false, [("x", .num 1), ("y", .undefined)]⟩ := by decide

/-- C1 (amended): every validation or evaluation failure yields a false
result and no exception; pre-validation and evaluation failures yield an
empty resolved-values map, while a post-substitution validation failure
yields the resolved values accumulated by the substitution pass. -/
theorem c1_failure_policy_amended :
    ∀ (e : String) (outputs : List (String × NodeOutput)),
      (preValidateConditionExpression e = false →
        evaluateConditionExpression (.str e) outputs = ⟨false, []⟩) ∧
      (preValidateConditionExpression e = true →
        validateConditionExpression (substTemplates outputs e).text = false →
        evaluateConditionExpression (.str e) outputs =
          ⟨false, (substTemplates outputs e).resolved⟩) ∧
      (preValidateConditionExpression e = true →
        validateConditionExpression (substTemplates outputs e).text = true →
        jsEval (substTemplates outputs e).text
            (substTemplates outputs e).evalCtx = none →
        evaluateConditionExpression (.str e) outputs = ⟨false, []⟩) := by
  intro e outputs
  refine ⟨fun h1 => by simp [evaluateConditionExpression, h1],
    fun h1 h2 => by simp [evaluateConditionExpression, h1, h2],
    fun h1 h2 h3 => by simp [evaluateConditionExpression, h1, h2, h3]⟩

/-- Witness for C1 (amended) at an expression rejected by
pre-validation. -/
theorem c1_failure_policy_amended_witness :
    preValidateConditionExpression "a;b" = false ∧
      evaluateConditionExpression (.str "a;b") [] = ⟨false, []⟩ :=
  ⟨by decide, (c1_failure_policy_amended "a;b" []).1 (by decide)⟩

/-- C4: a reference whose sanitized node id has no recorded output is
left as its literal text by string-mode resolution; the value-mode
substitution pass also leaves the text unchanged, binds no variable, and
records `undefined` for the referenced path.  Both passes are total Lean
functions, so no exception can escape. -/
theorem c4_unknown_reference_safety :
    ∀ (outputs : List (String × NodeOutput)) (k : String),
      alistGet outputs "missing" = none →
      processTemplates [(k, .str c4lit)] outputs = [(k, .str c4lit)] ∧
        substTemplates outputs c4lit = ⟨c4lit, [], [("x", .undefined)]⟩ := by
  intro outputs k h
  have hscan : scanTemplates c4lit = [TemplateSeg.ref "missing" "x" c4lit] := by
    decide
  have hsan : sanitizeId "missing" = "missing" := by decide
  have hstr : processTemplateString outputs c4lit = c4lit := by
    unfold processTemplateString
    rw [hscan]
    show String.join [renderSeg outputs (.ref "missing" "x" c4lit)] = c4lit
    simp only [renderSeg]
    rw [hsan, h]
    decide
  have hsub : substTemplates outputs c4lit = ⟨c4lit, [], [("x", .undefined)]⟩ := by
    unfold substTemplates
    rw [hscan]
    simp only [substTemplatesAux]
    rw [hsan, h]
    simp only [substTemplatesAux]
    decide
  exact ⟨by simp [processTemplates, hstr], hsub⟩

/-- Witness for C4 with an empty outputs map. -/
theorem c4_unknown_reference_safety_witness :
    alistGet ([] : List (String × NodeOutput)) "missing" = none ∧
      processTemplates [("cfg", .str c4lit)] [] = [("cfg", .str c4lit)] ∧
      substTemplates [] c4lit = ⟨c4lit, [], [("x", .undefined)]⟩ :=
  ⟨by decide, (c4_unknown_reference_safety [] "cfg" (by decide)).1,
   (c4_unknown_reference_safety [] "cfg" (by decide)).2⟩

/-- C6: the overall run success flag equals the conjunction of the
success fields over the final results map, and a run whose results map
is empty is successful. -/
theorem c6_overall_success_conjunction :
    ∀ (f : Nat) (env : Env),
      (runWorkflow f env).success =
          (runWorkflow f env).results.all (fun p => p.2.success) ∧
        ((runWorkflow f env).results = [] →
          (runWorkflow f env).success = true) := by
  intro f env
  refine ⟨rfl, fun h => ?_⟩
  have h1 : (runWorkflow f env).success =
      (runWorkflow f env).results.all (fun p => p.2.success) := rfl
  rw [h1, h]
  rfl

/-- Witness for C6 on a run with no nodes: zero recorded results and a
true overall flag. -/
theorem c6_overall_success_conjunction_witness :
    (runWorkflow 4 emptyEnv).results = [] ∧
      (runWorkflow 4 emptyEnv).success = true :=
  ⟨by decide, (c6_overall_success_conjunction 4 emptyEnv).2 (by decide)⟩

/-- C8 counterexample: with a webhook mock payload configured and a
non-empty live input, the synthesized payload has the live field and the
base field but not the mock payload field, though the claim asserts the
live input is merged over the mock payload. -/
theorem c8_counterexample :
    objField (runTriggerData c8cfg [("b", .num 2)] 0) "a" = none ∧
      objField (runTriggerData c8cfg [("b", .num 2)] 0) "b" = some (.num 2) ∧
      objField (runTriggerData c8cfg [("b", .num 2)] 0) "triggered" =
        some (.bool true) := by decide

/-- C8 (amended): the synthesized payload is the base fields with, for a
non-empty live input, only the live input spread over them (any
configured mock payload is ignored); with an empty live input, a webhook
trigger with a truthy mock payload gets the parsed payload spread over
the base fields when it parses (and just the base fields when parsing
fails); otherwise just the base fields. -/
theorem c8_trigger_payload_amended :
    ∀ (config input : List (String × JSValue)) (now : Int),
      (input ≠ [] →
        runTriggerData config input now =
          .obj (.ofList (mergeFields (baseTriggerFields now) input))) ∧
      (input = [] →
        alistGetD config "triggerType" = .str "Webhook" →
        jsTruthy (alistGetD config "webhookMockRequest") = true →
        runTriggerData config input now =
          (match jsonParse (jsToDisplayString
              (alistGetD config "webhookMockRequest")) with
           | some v =>
              .obj (.ofList (mergeFields (baseTriggerFields now) (spreadFields v)))
           | none => .obj (.ofList (baseTriggerFields now)))) ∧
      (input = [] →
        ¬(alistGetD config "triggerType" = .str "Webhook" ∧
            jsTruthy (alistGetD config "webhookMockRequest") = true) →
        runTriggerData config input now =
          .obj (.ofList (baseTriggerFields now))) := by
  intro config input now
  refine ⟨fun h => ?_, fun h1 h2 h3 => ?_, fun h1 h2 => ?_⟩
  · simp [runTriggerData, h]
  · subst h1
    simp [runTriggerData, h2, h3]
  · subst h1
    rw [runTriggerData, if_neg (by rintro ⟨hA, hB, -⟩; exact h2 ⟨hA, hB⟩)]
    simp

/-- Witness for C8 (amended): the non-empty live input branch at the
counterexample configuration. -/
theorem c8_trigger_payload_amended_witness :
    ([("b", JSValue.num 2)] ≠ ([] : List (String × JSValue))) ∧
      runTriggerData c8cfg [("b", .num 2)] 0 =
        .obj (.ofList (mergeFields (baseTriggerFields 0) [("b", .num 2)])) :=
  ⟨by decide, (c8_trigger_payload_amended c8cfg [("b", .num 2)] 0).1 (by decide)⟩

/-- Traversal only ever prepends to the visited set. -/
theorem exec_visited_extend (env : Env) :
    ∀ (f : Nat) (t : ExecTask) (st : St),
      ∃ pre, (exec f env t st).visited = pre ++ st.visited := by
  intro f
  induction f with
  | zero => exact fun t st => ⟨[], rfl⟩
  | succ f ih =>
    intro t st
    match t with
    | .many [] => exact ⟨[], rfl⟩
    | .many (n :: ns) =>
      obtain ⟨p1, h1⟩ := ih (.one n) st
      obtain ⟨p2, h2⟩ := ih (.many ns) (exec f env (.one n) st)
      refine ⟨p2 ++ p1, ?_⟩
      show (exec f env (.many ns) (exec f env (.one n) st)).visited = _
      rw [h2, h1, List.append_assoc]
    | .one nid =>
      by_cases hv : nid ∈ st.visited
      · exact ⟨[], by simp [exec, hv]⟩
      · rcases hnode : nodeLookup env nid with _ | node
        · exact ⟨[nid], by simp [exec, hv, hnode]⟩
        · by_cases hdis : node.enabled = some false
          · obtain ⟨p, hp⟩ := ih (.many (successors env nid))
              ⟨nid :: st.visited, st.resJ,
               st.outJ ++ [(nid, sanitizeId nid, ⟨labelOr node, .null⟩)]⟩
            exact ⟨p ++ [nid], by simp [exec, hv, hnode, hdis, hp]⟩
          · rcases hstep : runNodeStep env node (outMapOf st.outJ) with m | r | r
            · exact ⟨[nid], by simp [exec, hv, hnode, hdis, hstep]⟩
            · exact ⟨[nid], by simp [exec, hv, hnode, hdis, hstep]⟩
            · by_cases hs : r.success = true
              · by_cases hc : node.ntype = "action" ∧
                  alistGetD node.config "actionType" = .str "Condition"
                · by_cases hg : condGate r.data = true
                  · obtain ⟨p, hp⟩ := ih (.many (successors env nid))
                      ⟨nid :: st.visited, st.resJ ++ [(nid, r)],
                       st.outJ ++ [(nid, sanitizeId nid, ⟨labelOr node, r.data⟩)]⟩
                    exact ⟨p ++ [nid],
                      by simp [exec, hv, hnode, hdis, hstep, hs, hc, hg, hp]⟩
                  · exact ⟨[nid],
                      by simp [exec, hv, hnode, hdis, hstep, hs, hc, hg]⟩
                · obtain ⟨p, hp⟩ := ih (.many (successors env nid))
                    ⟨nid :: st.visited, st.resJ ++ [(nid, r)],
                     st.outJ ++ [(nid, sanitizeId nid, ⟨labelOr node, r.data⟩)]⟩
                  exact ⟨p ++ [nid],
                    by simp [exec, hv, hnode, hdis, hstep, hs, hc, hp]⟩
              · exact ⟨[nid], by simp [exec, hv, hnode, hdis, hstep, hs]⟩

/-- Journal growth invariant: a traversal call appends to both journals
a segment whose keys are pairwise distinct, were unvisited when the call
started, and are visited when it returns.  In particular no node id is
written twice within one walk. -/
theorem exec_journal_delta (env : Env) :
    ∀ (f : Nat) (t : ExecTask) (st : St),
      ∃ (dr : List (String × ExecutionResult))
        (dou : List (String × String × NodeOutput)),
        (exec f env t st).resJ = st.resJ ++ dr ∧
        (exec f env t st).outJ = st.outJ ++ dou ∧
        (dr.map Prod.fst).Nodup ∧
        (dou.map Prod.fst).Nodup ∧
        (∀ k, k ∈ dr.map Prod.fst ∨ k ∈ dou.map Prod.fst →
          k ∉ st.visited ∧ k ∈ (exec f env t st).visited) := by
  intro f
  induction f with
  | zero =>
    exact fun t st => ⟨[], [], by simp [exec], by simp [exec], by simp, by simp, by simp⟩
  | succ f ih =>
    have cont : ∀ (nid : String) (st : St) (succ : List String)
        (resAdd : List (String × ExecutionResult))
        (outAdd : List (String × String × NodeOutput)),
        nid ∉ st.visited →
        (∀ k ∈ resAdd.map Prod.fst, k = nid) →
        (∀ k ∈ outAdd.map Prod.fst, k = nid) →
        (resAdd.map Prod.fst).Nodup →
        (outAdd.map Prod.fst).Nodup →
        ∃ (dr : List (String × ExecutionResult))
          (dou : List (String × String × NodeOutput)),
          (exec f env (.many succ)
            ⟨nid :: st.visited, st.resJ ++ resAdd, st.outJ ++ outAdd⟩).resJ =
              st.resJ ++ dr ∧
          (exec f env (.many succ)
            ⟨nid :: st.visited, st.resJ ++ resAdd, st.outJ ++ outAdd⟩).outJ =
              st.outJ ++ dou ∧
          (dr.map Prod.fst).Nodup ∧
          (dou.map Prod.fst).Nodup ∧
          (∀ k, k ∈ dr.map Prod.fst ∨ k ∈ dou.map Prod.fst →
            k ∉ st.visited ∧
              k ∈ (exec f env (.many succ)
                ⟨nid :: st.visited, st.resJ ++ resAdd, st.outJ ++ outAdd⟩).visited) := by
      intro nid st succ resAdd outAdd hv hkr hko hnr hno
      obtain ⟨dr1, dou1, hr1, ho1, hnr1, hno1, hkey1⟩ :=
        ih (.many succ) ⟨nid :: st.visited, st.resJ ++ resAdd, st.outJ ++ outAdd⟩
      obtain ⟨pre, hpre⟩ := exec_visited_extend env f (.many succ)
        ⟨nid :: st.visited, st.resJ ++ resAdd, st.outJ ++ outAdd⟩
      have hnidIn : nid ∈ (exec f env (.many succ)
          ⟨nid :: st.visited, st.resJ ++ resAdd, st.outJ ++ outAdd⟩).visited := by
        rw [hpre]; simp
      refine ⟨resAdd ++ dr1, outAdd ++ dou1, by simp [hr1], by simp [ho1], ?_, ?_, ?_⟩
      · rw [List.map_append]
        refine hnr.append hnr1 ?_
        intro k hk1 hk2
        have hk1' := hkr k hk1
        have := (hkey1 k (Or.inl hk2)).1
        simp [hk1'] at this
      · rw [List.map_append]
        refine hno.append hno1 ?_
        intro k hk1 hk2
        have hk1' := hko k hk1
        have := (hkey1 k (Or.inr hk2)).1
        simp [hk1'] at this
      · intro k hk
        rcases hk with hk | hk <;> rw [List.map_append] at hk <;>
          rcases List.mem_append.mp hk with hk | hk
        · rcases hkr k hk with rfl
          exact ⟨hv, hnidIn⟩
        · obtain ⟨h1, h2⟩ := hkey1 k (Or.inl hk)
          exact ⟨fun hmem => h1 (by simp [hmem]), h2⟩
        · rcases hko k hk with rfl
          exact ⟨hv, hnidIn⟩
        · obtain ⟨h1, h2⟩ := hkey1 k (Or.inr hk)
          exact ⟨fun hmem => h1 (by simp [hmem]), h2⟩
    intro t st
    match t with
    | .many [] => exact ⟨[], [], by simp [exec], by simp [exec], by simp, by simp, by simp [exec]⟩
    | .many (n :: ns) =>
      obtain ⟨dr1, dou1, hr1, ho1, hnr1, hno1, hkey1⟩ := ih (.one n) st
      obtain ⟨dr2, dou2, hr2, ho2, hnr2, hno2, hkey2⟩ :=
        ih (.many ns) (exec f env (.one n) st)
      obtain ⟨pre1, hpre1⟩ := exec_visited_extend env f (.one n) st
      obtain ⟨pre2, hpre2⟩ :=
        exec_visited_extend env f (.many ns) (exec f env (.one n) st)
      have hshow : exec (f + 1) env (.many (n :: ns)) st =
          exec f env (.many ns) (exec f env (.one n) st) := rfl
      refine ⟨dr1 ++ dr2, dou1 ++ dou2, ?_, ?_, ?_, ?_, ?_⟩
      · rw [hshow, hr2, hr1, List.append_assoc]
      · rw [hshow, ho2, ho1, List.append_assoc]
      · rw [List.map_append]
        refine hnr1.append hnr2 ?_
        intro k hk1 hk2
        exact (hkey2 k (Or.inl hk2)).1 (hkey1 k (Or.inl hk1)).2
      · rw [List.map_append]
        refine hno1.append hno2 ?_
        intro k hk1 hk2
        exact (hkey2 k (Or.inr hk2)).1 (hkey1 k (Or.inr hk1)).2
      · intro k hk
        rw [hshow]
        rcases hk with hk | hk <;> rw [List.map_append] at hk <;>
          rcases List.mem_append.mp hk with hk | hk
        · obtain ⟨h1, h2⟩ := hkey1 k (Or.inl hk)
          exact ⟨h1, by rw [hpre2]; exact List.mem_append_right _ h2⟩
        · obtain ⟨h1, h2⟩ := hkey2 k (Or.inl hk)
          exact ⟨fun hmem => h1 (by rw [hpre1]; exact List.mem_append_right _ hmem), h2⟩
        · obtain ⟨h1, h2⟩ := hkey1 k (Or.inr hk)
          exact ⟨h1, by rw [hpre2]; exact List.mem_append_right _ h2⟩
        · obtain ⟨h1, h2⟩ := hkey2 k (Or.inr hk)
          exact ⟨fun hmem => h1 (by rw [hpre1]; exact List.mem_append_right _ hmem), h2⟩
    | .one nid =>
      by_cases hv : nid ∈ st.visited
      · exact ⟨[], [], by simp [exec, hv], by simp [exec, hv], by simp, by simp, by simp⟩
      · rcases hnode : nodeLookup env nid with _ | node
        · exact ⟨[], [], by simp [exec, hv, hnode], by simp [exec, hv, hnode],
            by simp, by simp, by simp⟩
        · by_cases hdis : node.enabled = some false
          · have hred : exec (f + 1) env (.one nid) st =
                exec f env (.many (successors env nid))
                  ⟨nid :: st.visited, st.resJ ++ [],
                   st.outJ ++ [(nid, sanitizeId nid, ⟨labelOr node, .null⟩)]⟩ := by
              simp [exec, hv, hnode, hdis]
            rw [hred]
            exact cont nid st (successors env nid) []
              [(nid, sanitizeId nid, ⟨labelOr node, .null⟩)] hv
              (by simp) (by simp) (by simp) (by simp)
          · rcases hstep : runNodeStep env node (outMapOf st.outJ) with m | r | r
            · refine ⟨[(nid, ⟨false, .undefined, .str m⟩)], [], ?_, ?_, by simp,
                by simp, ?_⟩
              · simp [exec, hv, hnode, hdis, hstep]
              · simp [exec, hv, hnode, hdis, hstep]
              · intro k hk
                simp at hk
                subst hk
                exact ⟨hv, by simp [exec, hv, hnode, hdis, hstep]⟩
            · refine ⟨[(nid, r)], [], ?_, ?_, by simp, by simp, ?_⟩
              · simp [exec, hv, hnode, hdis, hstep]
              · simp [exec, hv, hnode, hdis, hstep]
              · intro k hk
                simp at hk
                subst hk
                exact ⟨hv, by simp [exec, hv, hnode, hdis, hstep]⟩
            · by_cases hs : r.success = true
              · by_cases hc : node.ntype = "action" ∧
                  alistGetD node.config "actionType" = .str "Condition"
                · by_cases hg : condGate r.data = true
                  · have hred : exec (f + 1) env (.one nid) st =
                        exec f env (.many (successors env nid))
                          ⟨nid :: st.visited, st.resJ ++ [(nid, r)],
                           st.outJ ++ [(nid, sanitizeId nid, ⟨labelOr node, r.data⟩)]⟩ := by
                      simp [exec, hv, hnode, hdis, hstep, hs, hc, hg]
                    rw [hred]
                    exact cont nid st (successors env nid) [(nid, r)]
                      [(nid, sanitizeId nid, ⟨labelOr node, r.data⟩)] hv
                      (by simp) (by simp) (by simp) (by simp)
                  · refine ⟨[(nid, r)],
                      [(nid, sanitizeId nid, ⟨labelOr node, r.data⟩)], ?_, ?_,
                      by simp, by simp, ?_⟩
                    · simp [exec, hv, hnode, hdis, hstep, hs, hc, hg]
                    · simp [exec, hv, hnode, hdis, hstep, hs, hc, hg]
                    · intro k hk
                      have hknid : k = nid := by
                        rcases hk with hk | hk <;> simpa using hk
                      subst hknid
                      exact ⟨hv, by simp [exec, hv, hnode, hdis, hstep, hs, hc, hg]⟩
                · have hred : exec (f + 1) env (.one nid) st =
                      exec f env (.many (successors env nid))
                        ⟨nid :: st.visited, st.resJ ++ [(nid, r)],
                         st.outJ ++ [(nid, sanitizeId nid, ⟨labelOr node, r.data⟩)]⟩ := by
                    simp [exec, hv, hnode, hdis, hstep, hs, hc]
                  rw [hred]
                  exact cont nid st (successors env nid) [(nid, r)]
                    [(nid, sanitizeId nid, ⟨labelOr node, r.data⟩)] hv
                    (by simp) (by simp) (by simp) (by simp)
              · refine ⟨[(nid, r)],
                  [(nid, sanitizeId nid, ⟨labelOr node, r.data⟩)], ?_, ?_,
                  by simp, by simp, ?_⟩
                · simp [exec, hv, hnode, hdis, hstep, hs]
                · simp [exec, hv, hnode, hdis, hstep, hs]
                · intro k hk
                  have hknid : k = nid := by
                    rcases hk with hk | hk <;> simpa using hk
                  subst hknid
                  exact ⟨hv, by simp [exec, hv, hnode, hdis, hstep, hs]⟩

/-- Replacing the pairs carrying one key leaves lookups of other keys
unchanged. -/
theorem alistGet_map_set_ne {α : Type} (l : List (String × α))
    (k key : String) (v : α) (h : k ≠ key) :
    alistGet (l.map (fun p => if p.1 == key then (key, v) else p)) k =
      alistGet l k := by
  induction l with
  | nil => rfl
  | cons a tl ih =>
    by_cases ha : (a.1 == key) = true
    · have ha' : a.1 = key := by simpa using ha
      simp only [List.map_cons, if_pos ha, alistGet]
      rw [if_neg (by simpa using (Ne.symm h)),
        if_neg (by simp [ha', Ne.symm h])]
      exact ih
    · simp only [List.map_cons, if_neg ha, alistGet]
      by_cases hk : (a.1 == k) = true
      · rw [if_pos hk, if_pos hk]
      · rw [if_neg hk, if_neg hk]
        exact ih

/-- Appending a pair with a different key leaves a lookup unchanged. -/
theorem alistGet_append_single_ne {α : Type} (l : List (String × α))
    (k key : String) (v : α) (h : k ≠ key) :
    alistGet (l ++ [(key, v)]) k = alistGet l k := by
  induction l with
  | nil =>
    simp only [List.nil_append, alistGet]
    rw [if_neg (by simpa using (Ne.symm h))]
  | cons a tl ih =>
    simp only [List.cons_append, alistGet]
    by_cases hk : (a.1 == k) = true
    · rw [if_pos hk, if_pos hk]
    · rw [if_neg hk, if_neg hk]
      exact ih

/-- Setting one key leaves lookups of other keys unchanged. -/
theorem alistGet_alistSet_ne {α : Type} (l : List (String × α)) (k key : String)
    (v : α) (h : k ≠ key) : alistGet (alistSet l key v) k = alistGet l k := by
  unfold alistSet
  by_cases hany : l.any (fun p => p.1 == key)
  · rw [if_pos hany]
    exact alistGet_map_set_ne l k key v h
  · rw [if_neg hany]
    exact alistGet_append_single_ne l k key v h

/-- Folding assignments whose keys avoid `k` leaves the lookup of `k`
unchanged. -/
theorem alistGet_foldl_set_not_mem {α : Type} (l : List (String × α))
    (acc : List (String × α)) (k : String) (h : k ∉ l.map Prod.fst) :
    alistGet (l.foldl (fun acc p => alistSet acc p.1 p.2) acc) k =
      alistGet acc k := by
  induction l generalizing acc with
  | nil => rfl
  | cons p tl ih =>
    rw [List.map_cons] at h
    have h1 : k ≠ p.1 := fun he => h (by simp [he])
    have h2 : k ∉ tl.map Prod.fst := fun hm => h (List.mem_cons_of_mem _ hm)
    rw [List.foldl_cons, ih _ h2, alistGet_alistSet_ne _ _ _ _ h1]

/-- Appending writes whose keys avoid `k` leaves the object lookup of
`k` unchanged. -/
theorem alistGet_objOf_append_not_mem {α : Type}
    (a l : List (String × α)) (k : String) (h : k ∉ l.map Prod.fst) :
    alistGet (objOf (a ++ l)) k = alistGet (objOf a) k := by
  unfold objOf
  rw [List.foldl_append]
  exact alistGet_foldl_set_not_mem l _ k h

/-- Filtering with a stronger predicate yields a shorter list. -/
theorem length_filter_mono {α : Type} (l : List α) (p q : α → Bool)
    (h : ∀ a, p a = true → q a = true) :
    (l.filter p).length ≤ (l.filter q).length := by
  induction l with
  | nil => simp
  | cons a tl ih =>
    rw [List.filter_cons, List.filter_cons]
    by_cases hp : p a = true
    · rw [if_pos hp, if_pos (h a hp)]
      simpa using ih
    · rw [if_neg hp]
      by_cases hq : q a = true
      · rw [if_pos hq]
        simp only [List.length_cons]
        omega
      · rw [if_neg hq]
        exact ih

/-- A larger visited set leaves fewer unvisited nodes. -/
theorem unvisitedCount_mono (env : Env) (v1 v2 : List String)
    (h : ∀ x, x ∈ v1 → x ∈ v2) :
    unvisitedCount env v2 ≤ unvisitedCount env v1 := by
  unfold unvisitedCount
  apply length_filter_mono
  intro a ha
  simp at ha ⊢
  exact fun hmem => ha (h a hmem)

/-- Marking an unvisited node id visited strictly decreases the
unvisited count. -/
theorem length_filter_cons_lt (l v : List String) (nid : String)
    (hmem : nid ∈ l) (hnv : nid ∉ v) :
    (l.filter (fun i => !(nid :: v).contains i)).length <
      (l.filter (fun i => !v.contains i)).length := by
  induction l with
  | nil => cases hmem
  | cons a tl ih =>
    rw [List.filter_cons, List.filter_cons]
    by_cases ha : a = nid
    · subst ha
      rw [if_neg (by simp), if_pos (by simpa using hnv)]
      simp only [List.length_cons]
      have hmono := length_filter_mono tl (fun i => !(a :: v).contains i)
        (fun i => !v.contains i) ?_
      · omega
      · intro x hx
        simp at hx ⊢
        exact hx.2
    · have hmem' : nid ∈ tl := by
        rcases List.mem_cons.mp hmem with h1 | h1
        · exact absurd h1.symm ha
        · exact h1
      have heq : ((nid :: v).contains a) = (v.contains a) := by
        rw [List.contains_cons]
        simp [ha]
      rw [heq]
      by_cases hv2 : (!v.contains a) = true
      · rw [if_pos hv2, if_pos hv2]
        simpa using Nat.succ_lt_succ (ih hmem')
      · rw [if_neg hv2, if_neg hv2]
        exact ih hmem'

/-- Visiting a fresh node of the graph strictly decreases the unvisited
count. -/
theorem unvisitedCount_cons_lt (env : Env) (v : List String) (nid : String)
    (hmem : nid ∈ nodeIds env) (hnv : nid ∉ v) :
    unvisitedCount env (nid :: v) < unvisitedCount env v :=
  length_filter_cons_lt (nodeIds env) v nid hmem hnv

/-- A successor list is no longer than the edge list. -/
theorem successors_length_le (env : Env) (nid : String) :
    (successors env nid).length ≤ env.edges.length := by
  unfold successors
  rw [List.length_map]
  exact List.length_filter_le _ _

/-- A found node id is among the node ids. -/
theorem nodeLookup_mem_nodeIds (env : Env) (nid : String)
    (node : WorkflowNode) (h : nodeLookup env nid = some node) :
    nid ∈ nodeIds env := by
  unfold nodeLookup at h
  have h1 := List.find?_some h
  have h2 := List.mem_of_find?_eq_some h
  simp only [beq_iff_eq] at h1
  exact List.mem_map.mpr ⟨node, h2, h1⟩

/-- C2 counterexample: on the two-trigger graph, the walk from the first
trigger writes the result and output of node X with the unresolved
template text, and the walk from the second trigger overwrites both
entries with the resolved value; the journals show two writes for X with
different values, and the final map holds the second. -/
theorem c2_counterexample :
    ((runWorkflow (stdFuel c2Env) c2Env).resJournal.filter
        (fun p => p.1 == "X")).map (fun p => p.2.data) =
      [.str "\x7b\x7b@A:x.v\x7d\x7d", .str "1"] ∧
    ((runWorkflow (stdFuel c2Env) c2Env).outJournal.filter
        (fun p => p.1 == "X")).map (fun p => p.2.2.data) =
      [.str "\x7b\x7b@A:x.v\x7d\x7d", .str "1"] ∧
    alistGet (runWorkflow (stdFuel c2Env) c2Env).results "X" =
      some ⟨true, .str "1", .undefined⟩ := by decide

/-- C2 (amended): within a single trigger walk, each node id has its
ExecutionResult written at most once and its NodeOutput written at most
once (the visited-set guard blocks every second arrival); entries can
still be rewritten by a later walk of the same run when a node is
reachable from two distinct trigger nodes. -/
theorem c2_no_overwrite_within_walk :
    ∀ (f : Nat) (env : Env) (nid : String),
      (((exec f env (.one nid) stInit).resJ).map Prod.fst).Nodup ∧
        (((exec f env (.one nid) stInit).outJ).map Prod.fst).Nodup := by
  intro f env nid
  obtain ⟨dr, dou, hr, ho, hnr, hno, -⟩ :=
    exec_journal_delta env f (.one nid) stInit
  rw [hr, ho]
  constructor <;> simpa [stInit]

/-- C3 counterexample: when the step of X returns an explicit failure
result, the run still writes an outputs entry for X (with undefined
data), contradicting the claim that the outputs map is unchanged at the
sanitized id of X; the failed result is recorded and the successor Y is
never visited. -/
theorem c3_counterexample :
    alistGet (runWorkflow (stdFuel c3Env) c3Env).outputs (sanitizeId "X") =
        some ⟨"X", .undefined⟩ ∧
      alistGet (runWorkflow (stdFuel c3Env) c3Env).results "X" =
        some ⟨false, .undefined, .str "boom"⟩ ∧
      alistGet (runWorkflow (stdFuel c3Env) c3Env).results "Y" = none ∧
      alistGet (runWorkflow (stdFuel c3Env) c3Env).outputs (sanitizeId "Y") =
        none := by decide

/-- C3 (amended): an action node whose step returns an explicit failure
result records the failed ExecutionResult with its error message, writes
a NodeOutput entry with undefined data under its sanitized id (unlike a
thrown error, which writes no outputs entry), and visits none of its
successors: the resulting state is exactly the previous state plus the
visit mark and the two writes. -/
theorem c3_returned_failure_amended :
    ∀ (f : Nat) (env : Env) (nid : String) (st : St) (node : WorkflowNode)
      (aty : String) (efs : JSFields),
      nid ∉ st.visited →
      nodeLookup env nid = some node →
      node.ntype = "action" →
      node.enabled ≠ some false →
      alistGetD node.config "actionType" = .str aty →
      aty ≠ "" →
      aty ≠ "Condition" →
      (∀ input, env.oracle aty input = .ok (.obj efs)) →
      fieldsHas efs "success" = true →
      fieldsGetD efs "success" = .bool false →
      exec (f + 1) env (.one nid) st =
        ⟨nid :: st.visited,
         st.resJ ++ [(nid, ⟨false, .undefined,
           if jsTruthy (fieldsGetD efs "error") then fieldsGetD efs "error"
           else .str ("Step \"" ++ aty ++ "\" failed")⟩)],
         st.outJ ++ [(nid, sanitizeId nid, ⟨labelOr node, .undefined⟩)]⟩ := by
  intro f env nid st node aty efs hv hnode hty hdis hat haty hnc horacle hhas hsucc
  have htr : jsTruthy (JSValue.str aty) = true := by
    have hie : aty.isEmpty = false := by
      by_cases hb : aty.isEmpty = true
      · exact absurd ((String.isEmpty_iff aty).mp hb) haty
      · simpa using hb
    simp [jsTruthy, hie]
  have hstep : runNodeStep env node (outMapOf st.outJ) =
      .completed ⟨false, .undefined,
        if jsTruthy (fieldsGetD efs "error") then fieldsGetD efs "error"
        else .str ("Step \"" ++ aty ++ "\" failed")⟩ := by
    simp [runNodeStep, hty, hat, htr, hnc, horacle, completeActionStep,
      isErrorResult, hhas, hsucc, jsToDisplayString, jsBeq]
  simp [exec, hv, hnode, hdis, hstep]

/-- Witness for C3 (amended) at the counterexample graph. -/
theorem c3_returned_failure_amended_witness :
    exec 20 c3Env (.one "X") stInit =
      ⟨["X"], [("X", ⟨false, .undefined, .str "boom"⟩)],
       [("X", "X", ⟨"X", .undefined⟩)]⟩ := by
  have h := c3_returned_failure_amended 19 c3Env "X" stInit
    (mkNode "X" "action" [("actionType", .str "Boom")]) "Boom"
    (.cons "success" (.bool false) (.cons "error" (.str "boom") .nil))
    (by decide) (by decide) rfl (by decide) (by decide) (by decide) (by decide)
    (fun _ => rfl) (by decide) (by decide)
  exact h

/-- C9: a node whose enabled flag is literally false records a null-data
NodeOutput under its sanitized id, records no ExecutionResult (the
results map is unchanged at its id for the whole rest of the walk), and
traversal continues with its full successor list. -/
theorem c9_disabled_passthrough :
    ∀ (f : Nat) (env : Env) (nid : String) (st : St) (node : WorkflowNode),
      nid ∉ st.visited →
      nodeLookup env nid = some node →
      node.enabled = some false →
      exec (f + 1) env (.one nid) st =
          exec f env (.many (successors env nid))
            ⟨nid :: st.visited, st.resJ,
             st.outJ ++ [(nid, sanitizeId nid, ⟨labelOr node, .null⟩)]⟩ ∧
        alistGet (objOf (exec (f + 1) env (.one nid) st).resJ) nid =
          alistGet (objOf st.resJ) nid := by
  intro f env nid st node hv hnode hdis
  have hred : exec (f + 1) env (.one nid) st =
      exec f env (.many (successors env nid))
        ⟨nid :: st.visited, st.resJ,
         st.outJ ++ [(nid, sanitizeId nid, ⟨labelOr node, .null⟩)]⟩ := by
    simp [exec, hv, hnode, hdis]
  refine ⟨hred, ?_⟩
  rw [hred]
  obtain ⟨dr, dou, hr, ho, hnr, hno, hkey⟩ :=
    exec_journal_delta env f (.many (successors env nid))
      ⟨nid :: st.visited, st.resJ,
       st.outJ ++ [(nid, sanitizeId nid, ⟨labelOr node, .null⟩)]⟩
  rw [hr]
  apply alistGet_objOf_append_not_mem
  intro hmem
  exact (hkey nid (Or.inl hmem)).1 (by simp)

/-- Witness for C9 at the concrete disabled-node graph: D records a
null output, keeps no ExecutionResult, and hands traversal its two
successors. -/
theorem c9_disabled_passthrough_witness :
    exec 30 c9Env (.one "D") stInit =
        exec 29 c9Env (.many (successors c9Env "D"))
          ⟨["D"], [], [("D", "D", ⟨"D", .null⟩)]⟩ ∧
      alistGet (objOf (exec 30 c9Env (.one "D") stInit).resJ) "D" = none ∧
      successors c9Env "D" = ["A", "B"] := by
  have h := c9_disabled_passthrough 29 c9Env "D" stInit
    ⟨"D", "action", "", some false, [("actionType", .str "Ok")]⟩
    (by decide) (by decide) rfl
  exact ⟨h.1, h.2.trans (by decide), by decide⟩

/-- Fuel stability: any two fuel amounts at least the task bound produce
the same traversal result, so the fuel-bounded recursion models a
terminating traversal whose value is independent of the bound. -/
theorem exec_fuel_stable (env : Env) :
    ∀ (f g : Nat) (t : ExecTask) (st : St),
      taskBound env t st ≤ f → taskBound env t st ≤ g →
      exec f env t st = exec g env t st := by
  intro f
  induction f using Nat.strong_induction_on with
  | _ f IH =>
    intro g t st hf hg
    have hb1 : 1 ≤ taskBound env t st := by
      cases t <;> simp [taskBound]
    obtain ⟨f1, rfl⟩ : ∃ f1, f = f1 + 1 := ⟨f - 1, by omega⟩
    obtain ⟨g1, rfl⟩ : ∃ g1, g = g1 + 1 := ⟨g - 1, by omega⟩
    match t with
    | .many [] => rfl
    | .many (n :: ns) =>
      have hbn : taskBound env (.one n) st ≤ f1 ∧
          taskBound env (.one n) st ≤ g1 := by
        simp only [taskBound, List.length_cons] at hf hg ⊢
        omega
      have h1 : exec f1 env (.one n) st = exec g1 env (.one n) st :=
        IH f1 (by omega) g1 (.one n) st hbn.1 hbn.2
      obtain ⟨pre, hpre⟩ := exec_visited_extend env f1 (.one n) st
      have hUm : unvisitedCount env (exec f1 env (.one n) st).visited ≤
          unvisitedCount env st.visited := by
        apply unvisitedCount_mono
        intro x hx
        rw [hpre]
        exact List.mem_append_right _ hx
      have hbn2 : taskBound env (.many ns) (exec f1 env (.one n) st) ≤ f1 ∧
          taskBound env (.many ns) (exec f1 env (.one n) st) ≤ g1 := by
        have hm := Nat.mul_le_mul_left (env.edges.length + 2) hUm
        simp only [taskBound, List.length_cons] at hf hg ⊢
        constructor <;> linarith
      have h2 : exec f1 env (.many ns) (exec f1 env (.one n) st) =
          exec g1 env (.many ns) (exec f1 env (.one n) st) :=
        IH f1 (by omega) g1 (.many ns) _ hbn2.1 hbn2.2
      show exec f1 env (.many ns) (exec f1 env (.one n) st) =
        exec g1 env (.many ns) (exec g1 env (.one n) st)
      rw [← h1, h2]
    | .one nid =>
      by_cases hv : nid ∈ st.visited
      · simp [exec, hv]
      · rcases hnode : nodeLookup env nid with _ | node
        · simp [exec, hv, hnode]
        · have hmem : nid ∈ nodeIds env := nodeLookup_mem_nodeIds env nid node hnode
          have hUlt : unvisitedCount env (nid :: st.visited) <
              unvisitedCount env st.visited :=
            unvisitedCount_cons_lt env st.visited nid hmem hv
          have hslen : (successors env nid).length ≤ env.edges.length :=
            successors_length_le env nid
          have hbound : ∀ (X : List (String × ExecutionResult))
              (Y : List (String × String × NodeOutput)),
              taskBound env (.many (successors env nid)) ⟨nid :: st.visited, X, Y⟩ ≤ f1 ∧
              taskBound env (.many (successors env nid)) ⟨nid :: st.visited, X, Y⟩ ≤ g1 := by
            intro X Y
            have h1 : unvisitedCount env (nid :: st.visited) + 1 ≤
                unvisitedCount env st.visited := hUlt
            have hm := Nat.mul_le_mul_left (env.edges.length + 2) h1
            rw [Nat.mul_succ] at hm
            simp only [taskBound] at hf hg ⊢
            constructor <;> linarith
          by_cases hdis : node.enabled = some false
          · have hredf : exec (f1 + 1) env (.one nid) st =
                exec f1 env (.many (successors env nid))
                  ⟨nid :: st.visited, st.resJ,
                   st.outJ ++ [(nid, sanitizeId nid, ⟨labelOr node, .null⟩)]⟩ := by
              simp [exec, hv, hnode, hdis]
            have hredg : exec (g1 + 1) env (.one nid) st =
                exec g1 env (.many (successors env nid))
                  ⟨nid :: st.visited, st.resJ,
                   st.outJ ++ [(nid, sanitizeId nid, ⟨labelOr node, .null⟩)]⟩ := by
              simp [exec, hv, hnode, hdis]
            rw [hredf, hredg]
            exact IH f1 (by omega) g1 _ _ (hbound _ _).1 (hbound _ _).2
          · rcases hstep : runNodeStep env node (outMapOf st.outJ) with m | r | r
            · simp [exec, hv, hnode, hdis, hstep]
            · simp [exec, hv, hnode, hdis, hstep]
            · by_cases hs : r.success = true
              · by_cases hc : node.ntype = "action" ∧
                  alistGetD node.config "actionType" = .str "Condition"
                · by_cases hg2 : condGate r.data = true
                  · have hredf : exec (f1 + 1) env (.one nid) st =
                        exec f1 env (.many (successors env nid))
                          ⟨nid :: st.visited, st.resJ ++ [(nid, r)],
                           st.outJ ++ [(nid, sanitizeId nid, ⟨labelOr node, r.data⟩)]⟩ := by
                      simp [exec, hv, hnode, hdis, hstep, hs, hc, hg2]
                    have hredg : exec (g1 + 1) env (.one nid) st =
                        exec g1 env (.many (successors env nid))
                          ⟨nid :: st.visited, st.resJ ++ [(nid, r)],
                           st.outJ ++ [(nid, sanitizeId nid, ⟨labelOr node, r.data⟩)]⟩ := by
                      simp [exec, hv, hnode, hdis, hstep, hs, hc, hg2]
                    rw [hredf, hredg]
                    exact IH f1 (by omega) g1 _ _ (hbound _ _).1 (hbound _ _).2
                  · simp [exec, hv, hnode, hdis, hstep, hs, hc, hg2]
                · have hredf : exec (f1 + 1) env (.one nid) st =
                      exec f1 env (.many (successors env nid))
                        ⟨nid :: st.visited, st.resJ ++ [(nid, r)],
                         st.outJ ++ [(nid, sanitizeId nid, ⟨labelOr node, r.data⟩)]⟩ := by
                    simp [exec, hv, hnode, hdis, hstep, hs, hc]
                  have hredg : exec (g1 + 1) env (.one nid) st =
                      exec g1 env (.many (successors env nid))
                        ⟨nid :: st.visited, st.resJ ++ [(nid, r)],
                         st.outJ ++ [(nid, sanitizeId nid, ⟨labelOr node, r.data⟩)]⟩ := by
                    simp [exec, hv, hnode, hdis, hstep, hs, hc]
                  rw [hredf, hredg]
                  exact IH f1 (by omega) g1 _ _ (hbound _ _).1 (hbound _ _).2
              · simp [exec, hv, hnode, hdis, hstep, hs]

/-- The standard fuel covers a walk started from the initial state. -/
theorem taskBound_init_le_stdFuel (env : Env) (nid : String) :
    taskBound env (.one nid) stInit ≤ stdFuel env := by
  have h1 : unvisitedCount env ([] : List String) ≤ env.nodes.length := by
    unfold unvisitedCount nodeIds
    calc (List.filter _ (env.nodes.map (fun n => n.id))).length
        ≤ (env.nodes.map (fun n => n.id)).length := List.length_filter_le _ _
      _ = env.nodes.length := List.length_map _ _
  have h2 := Nat.mul_le_mul_left (env.edges.length + 2) h1
  show (env.edges.length + 2) * unvisitedCount env stInit.visited + 1 ≤
    (env.edges.length + 2) * (env.nodes.length + 2)
  have h3 : (env.edges.length + 2) * (env.nodes.length + 2) =
      (env.edges.length + 2) * env.nodes.length +
        (env.edges.length + 2) * 2 := by ring
  rw [h3, show stInit.visited = ([] : List String) from rfl]
  linarith [h2]

/-- C7: a single walk terminates on every graph — every fuel amount of
at least the standard bound yields the same state as the standard bound,
via the visited-set guard — and executes each node at most once on that
walk; on the cyclic graph with edges A to B and B to A, seeded at A, the
nodes A and B each execute exactly once. -/
theorem c7_cycle_termination :
    (∀ (env : Env) (f : Nat) (nid : String), stdFuel env ≤ f →
      exec f env (.one nid) stInit = exec (stdFuel env) env (.one nid) stInit) ∧
    (∀ (env : Env) (f : Nat) (nid : String),
      (((exec f env (.one nid) stInit).resJ).map Prod.fst).Nodup) ∧
    ((exec (stdFuel cycEnv) cycEnv (.one "A") stInit).resJ.map Prod.fst =
      ["A", "B"]) := by
  refine ⟨?_, ?_, by decide⟩
  · intro env f nid hge
    exact exec_fuel_stable env f (stdFuel env) (.one nid) stInit
      (le_trans (taskBound_init_le_stdFuel env nid) hge)
      (taskBound_init_le_stdFuel env nid)
  · intro env f nid
    obtain ⟨dr, dou, hr, ho, hnr, hno, -⟩ :=
      exec_journal_delta env f (.one nid) stInit
    rw [hr]
    simpa [stInit]

/-- Witness for C7: on the cyclic graph, a large fuel amount agrees with
the standard bound and the walk journal has pairwise distinct keys. -/
theorem c7_cycle_termination_witness :
    stdFuel cycEnv ≤ 99 ∧
      exec 99 cycEnv (.one "A") stInit =
        exec (stdFuel cycEnv) cycEnv (.one "A") stInit ∧
      ((exec 99 cycEnv (.one "A") stInit).resJ.map Prod.fst).Nodup :=
  ⟨by decide, c7_cycle_termination.1 cycEnv 99 "A" (by decide),
   c7_cycle_termination.2.1 cycEnv 99 "A"⟩

/-- C5: in the graph trigger to Condition to successor, with a literal
boolean condition, the successor appears in the results and outputs maps
exactly when the condition resolves to true, and the Condition node
itself records a successful result carrying the resolved boolean either
way. -/
theorem c5_condition_pruning :
    ∀ (b : Bool) (now : Int),
      ((alistGet (runWorkflow (stdFuel (c5Env b now)) (c5Env b now)).results
          "A").isSome = b) ∧
      ((alistGet (runWorkflow (stdFuel (c5Env b now)) (c5Env b now)).outputs
          "A").isSome = b) ∧
      (alistGet (runWorkflow (stdFuel (c5Env b now)) (c5Env b now)).results
          "C" =
        some ⟨true, .obj (.cons "condition" (.bool b) .nil), .undefined⟩) := by
  intro b now
  cases b <;> exact ⟨rfl, rfl, rfl⟩

end WorkflowExec
